import Mathlib

/-!
# ComPrinterW64: serial port scan and read loop

A shallow embedding of `src/ComPrinterW64.cpp` (a single translation unit: the globals,
`CloseSerialPort`, `exit_message` and `main`).

Conventions of the embedding

* The program is a Win64 program (`windows.h`, LLP64): `int` and `long` are 32-bit
  two's-complement, `DWORD` is 32-bit unsigned, `ULONGLONG` is 64-bit unsigned and plain
  `char` is a *signed* 8-bit type.  Values are carried as `Int`/`Nat` and every store into
  a narrower type is written out (`toInt32`, `toDWORD`, `toChar`, `% 2^64`).
* The global variables are the fields of `Globals`, with the initialisers of the source.
* The operating system is an explicit environment `Env`: what `CreateFileA` answers for each
  device number, whether the three configuration calls succeed, what `GetTickCount64`
  returns, and what every `ReadFile` call delivers.  Calls with an observable effect are
  recorded, in program order, as a list of `Event`s.
* `argv` is taken already tokenised (`Opt`): the `strcmp` dispatch and the libc conversions
  `atoi`/`strtol` are outside the repository, so each option carries the number the
  conversion returned.
-/

namespace ComPrinter

/-! ## Machine types -/

/-- A byte as delivered by the serial driver. -/
abbrev Byte := Fin 256

/-- Win32 `HANDLE`, carried as an integer. -/
abbrev HANDLE := Int

/-- The constant `INVALID_HANDLE_VALUE`, i.e. `(HANDLE)-1`. -/
def INVALID_HANDLE_VALUE : HANDLE := -1

/-- Store into a 32-bit `int` / `long`. -/
def toInt32 (v : Int) : Int := (v + 2147483648) % 4294967296 - 2147483648

/-- Store into a `DWORD` (conversion of an `int` to 32-bit unsigned). -/
def toDWORD (v : Int) : Nat := (v % 4294967296).toNat

/-- Value of the `char` object holding byte `b`, promoted to `int`: plain `char` is signed. -/
def toChar (b : Byte) : Int := if b.val < 128 then (b.val : Int) else (b.val : Int) - 256

/-- The byte that `printf("%c", c)` writes: `c` converted to `unsigned char`. -/
def toUChar (c : Int) : Byte := Fin.ofNat (c % 256).toNat

/-- The number `2^64`: `ULONGLONG` arithmetic is modulo this. -/
def U64 : Nat := 18446744073709551616

/-- Subtraction `a - b` of two `ULONGLONG`s. -/
def subU64 (a b : Nat) : Nat := (a % U64 + U64 - b % U64) % U64

/-! ## Global variables (lines 33-51) -/

/-- The global variables of the program that the modelled code reads or writes, with their
initial values. -/
structure Globals where
  hSerial : HANDLE := INVALID_HANDLE_VALUE
  dev_number : Int := -1
  baudrate : Int := 2400
  scan_max : Int := 30
  scan_min : Int := 1
  simulate_keystrokes : Int := 0
  debug : Int := 1
  charcount : Int := -1
  chars_read : Int := 0
  endchar : Int := -1
  lastchartime : Nat := 18446744073709551615
  timeout_ms : Nat := 4294967295
  deriving DecidableEq

/-- Observable calls, in program order. -/
inductive Event where
  /-- The call `CreateFileA("\\\\.\\COMn", ...)`. -/
  | createFile (n : Int)
  /-- The call `CloseHandle(h)`. -/
  | closeHandle (h : HANDLE)
  /-- The call `printf("%c", c)`: the byte written to standard output. -/
  | printChar (b : Byte)
  /-- The call `simulate_keystroke(c)`. -/
  | keystroke (c : Int)
  deriving DecidableEq

/-! ## Command line (lines 119-184) -/

/-- One step of the argument loop. -/
inductive Opt where
  /-- The pair `/devnum s`, with `v = atoi(s)`. -/
  | devnum (v : Int)
  /-- The pair `/baudrate s`, with `v = atoi(s)`. -/
  | baudrate (v : Int)
  /-- The pair `/charcount s`, with `v = atoi(s)`. -/
  | charcount (v : Int)
  /-- The pair `/timeout s`, with `v = atoi(s)`. -/
  | timeout (v : Int)
  /-- The pair `/endchar s`, with `b` the first byte of `s`. -/
  | endchar (b : Byte)
  /-- The pair `/endhex s`, with `v = strtol(s, NULL, 16)`. -/
  | endhex (v : Int)
  | keystrokes
  | debug
  | quiet
  /-- Any other argument: reported when `debug` is nonzero, otherwise ignored. -/
  | unknown
  /-- A flag that takes a value, given as the last argument: `exit_message(..., 1)`. -/
  | missingValue
  deriving DecidableEq

/-- The body of the argument loop for one option; `Except.error e` is `exit_message(_, e)`. -/
def parseOpt (g : Globals) : Opt → Except Int Globals
  | .devnum v => .ok { g with dev_number := toInt32 v }
  | .baudrate v => .ok { g with baudrate := toInt32 v }
  | .charcount v => .ok { g with charcount := toInt32 v }
  | .timeout v => .ok { g with timeout_ms := toDWORD v }
  | .endchar b => .ok { g with endchar := toChar b }
  | .endhex v => .ok { g with endchar := toInt32 v }
  | .keystrokes => .ok { g with simulate_keystrokes := 1 }
  | .debug => .ok { g with debug := 2 }
  | .quiet => .ok { g with debug := 0 }
  | .unknown => .ok g
  | .missingValue => .error 1

/-- The argument loop `while (n < argc)`. -/
def parseArgs (g : Globals) : List Opt → Except Int Globals
  | [] => .ok g
  | o :: os =>
    match parseOpt g o with
    | .ok g1 => parseArgs g1 os
    | .error e => .error e

/-! ## Port scan (lines 201-228) -/

/-- The loop `for (n = scan_max; n >= scan_min; --n)` from the state where the loop variable
is `n`.  The first argument bounds the number of iterations; `portScan` passes
`scan_max + 1 - scan_min`, the number of values of `n` the loop can visit.  The step `--n`
is taken in the integers: it is exact in `int` as long as `scan_min` is above `INT_MIN`. -/
def scanLoop (createFile : Int → HANDLE) : Nat → Int → Globals → Globals × List Event
  | 0, _, g => (g, [])
  | fuel + 1, n, g =>
    if n ≥ g.scan_min then
      let g1 := { g with hSerial := createFile n }
      if g1.hSerial ≠ INVALID_HANDLE_VALUE then
        ({ g1 with dev_number := n }, [Event.createFile n])
      else
        let r := scanLoop createFile fuel (n - 1) g1
        (r.1, Event.createFile n :: r.2)
    else (g, [])

/-- Lines 201-224: restriction of the scan range to an explicit device number, then the
scan. -/
def portScan (createFile : Int → HANDLE) (g : Globals) : Globals × List Event :=
  let g1 := if g.dev_number ≠ -1 then { g with scan_max := g.dev_number, scan_min := g.dev_number }
            else g
  scanLoop createFile (g1.scan_max + 1 - g1.scan_min).toNat g1.scan_max g1

/-- Outcome of the port scan. -/
structure Located where
  g : Globals
  events : List Event
  /-- The code passed to `exit_message` at line 228, if that line runs. -/
  exit : Option Int

/-- Lines 201-228: the scan followed by the check `hSerial == INVALID_HANDLE_VALUE`. -/
def locate (createFile : Int → HANDLE) (g : Globals) : Located :=
  let r := portScan createFile g
  if r.1.hSerial = INVALID_HANDLE_VALUE then ⟨r.1, r.2, some 1⟩ else ⟨r.1, r.2, none⟩

/-- The device numbers handed to `CreateFileA`, in call order. -/
def attempts : List Event → List Int
  | [] => []
  | .createFile n :: es => n :: attempts es
  | _ :: es => attempts es

/-- The list `[n, n-1, ..., n-k+1]`. -/
def countdown (n : Int) : Nat → List Int
  | 0 => []
  | k + 1 => n :: countdown (n - 1) k

/-! ## Release of the port (lines 53-73, 199) -/

/-- The function `CloseSerialPort`: the handle is closed when it is not
`INVALID_HANDLE_VALUE`; the result of `CloseHandle` only selects the message printed.  No
global variable is written. -/
def CloseSerialPort (g : Globals) : Globals × List Event :=
  if g.hSerial ≠ INVALID_HANDLE_VALUE then (g, [Event.closeHandle g.hSerial]) else (g, [])

/-- The functions registered with `atexit`. -/
inductive AtexitFn where
  | closeSerialPort
  deriving DecidableEq

/-- Call of a registered function. -/
def AtexitFn.call : AtexitFn → Globals → Globals × List Event
  | .closeSerialPort, g => CloseSerialPort g

/-- The library call `exit`: the registered functions run, last registered first. -/
def runAtexit : List AtexitFn → Globals → Globals × List Event
  | [], g => (g, [])
  | f :: fs, g =>
    let r := f.call g
    let r2 := runAtexit fs r.1
    (r2.1, r.2 ++ r2.2)

/-- Number of `CloseHandle` calls in a trace. -/
def closeCount : List Event → Nat
  | [] => 0
  | .closeHandle _ :: es => closeCount es + 1
  | _ :: es => closeCount es

/-- The handles passed to `CloseHandle`, in call order. -/
def closedHandles : List Event → List HANDLE
  | [] => []
  | .closeHandle h :: es => h :: closedHandles es
  | _ :: es => closedHandles es

/-- The bytes written to standard output, in order. -/
def output : List Event → List Byte
  | [] => []
  | .printChar b :: es => b :: output es
  | _ :: es => output es

/-! ## Read loop (lines 257-279) -/

/-- Which `break` left the read loop: line 276, 277 or 278. -/
inductive Reason where
  | TerminatorSeen
  | IdleTimeout
  | ByteLimitReached
  deriving DecidableEq

/-- What the environment supplies to one iteration of `while (1)`. -/
structure Tick where
  /-- Outcome of `ReadFile(hSerial, &c, 1, &bytes_read, NULL)`: `some b` when one byte was
  stored in `c` (`bytes_read == 1`), `none` when the call timed out or failed
  (`bytes_read == 0`, `c` untouched). -/
  read : Option Byte
  /-- Value of `GetTickCount64()` at line 270, should that line run. -/
  tRead : Nat
  /-- Value of `GetTickCount64()` at line 277, should that line run. -/
  tCheck : Nat
  deriving DecidableEq

/-- State of the loop: the globals and the local `c`. -/
structure LoopState where
  g : Globals
  c : Int
  deriving DecidableEq

/-- Lines 267-274: the read and the forwarding of the byte. -/
def readAndForward (s : LoopState) (t : Tick) : LoopState × List Event :=
  let bytes_read : Nat := if t.read.isSome then 1 else 0
  let c : Int := match t.read with
    | some b => toChar b
    | none => s.c
  if bytes_read = 1 ∧ c ≠ s.g.endchar then
    let g1 := { s.g with lastchartime := t.tRead % U64, chars_read := toInt32 (s.g.chars_read + 1) }
    (⟨g1, c⟩,
      Event.printChar (toUChar c) ::
        (if g1.simulate_keystrokes = 1 then [Event.keystroke c] else []))
  else (⟨s.g, c⟩, [])

/-- Lines 276-278: the three exit tests, in source order. -/
def exitTests (s : LoopState) (t : Tick) : Option Reason :=
  if s.c = s.g.endchar ∧ s.g.endchar ≥ 0 then some .TerminatorSeen
  else if subU64 t.tCheck s.g.lastchartime > s.g.timeout_ms ∧ s.g.timeout_ms > 0 then
    some .IdleTimeout
  else if s.g.chars_read ≥ s.g.charcount ∧ s.g.charcount > 0 then some .ByteLimitReached
  else none

/-- One iteration of `while (1)`. -/
def loopBody (s : LoopState) (t : Tick) : LoopState × List Event × Option Reason :=
  let r := readAndForward s t
  (r.1, r.2, exitTests r.1 t)

/-- Result of running the loop on a finite run of iterations. -/
structure LoopResult where
  s : LoopState
  events : List Event
  /-- The `break` taken, or `none` when the loop is still running after the given
  iterations. -/
  reason : Option Reason
  /-- Number of iterations executed. -/
  iterations : Nat
  deriving DecidableEq

/-- The loop `while (1)` against the iterations the environment supplies. -/
def readLoop (s : LoopState) : List Tick → LoopResult
  | [] => ⟨s, [], none, 0⟩
  | t :: ts =>
    let r := loopBody s t
    match r.2.2 with
    | some reason => ⟨r.1, r.2.1, some reason, 1⟩
    | none =>
      let rest := readLoop r.1 ts
      ⟨rest.s, r.2.1 ++ rest.events, rest.reason, rest.iterations + 1⟩

/-! ## The program (lines 108-282) -/

/-- The operating system, as seen by one run. -/
structure Env where
  /-- Result of `CreateFileA` for device number `n`. -/
  createFile : Int → HANDLE
  /-- Whether `GetCommState` succeeds. -/
  getCommState : Bool
  /-- Whether `SetCommState` succeeds. -/
  setCommState : Bool
  /-- Whether `SetCommTimeouts` succeeds. -/
  setCommTimeouts : Bool
  /-- Value of `GetTickCount64()` at line 262. -/
  startTick : Nat
  /-- Content of the uninitialised local `c` when the loop is entered. -/
  c0 : Int
  /-- The iterations of the read loop. -/
  ticks : List Tick

/-- How a run ends. -/
inductive Status where
  /-- The process ended with this exit code. -/
  | exited (code : Int)
  /-- The read loop is still running after the iterations of the environment. -/
  | reading
  deriving DecidableEq

/-- A run of the program. -/
structure Run where
  g : Globals
  events : List Event
  status : Status
  reason : Option Reason
  deriving DecidableEq

/-- Process exit with code `code`: `exit(code)` inside `exit_message`, or the return from
`main`.  `fns` are the functions registered with `atexit` so far. -/
def exitWith (fns : List AtexitFn) (g : Globals) (events : List Event) (code : Int)
    (reason : Option Reason) : Run :=
  let r := runAtexit fns g
  ⟨r.1, events ++ r.2, .exited code, reason⟩

/-- The function `exit_message`: the message goes to the diagnostic stream, then
`exit(error)`. -/
def exit_message (fns : List AtexitFn) (g : Globals) (events : List Event) (error : Int) : Run :=
  exitWith fns g events error none

/-- Line 262 and the declaration of `c`: the state in which the read loop is entered. -/
def loopStart (g : Globals) (env : Env) : LoopState :=
  ⟨{ g with lastchartime := env.startTick % U64 }, env.c0⟩

/-- Lines 265-281: the read loop, then `return 0` once a `break` was taken. -/
def runLoop (fns : List AtexitFn) (ev : List Event) (s : LoopState) (ticks : List Tick) : Run :=
  let r := readLoop s ticks
  match r.reason with
  | some reason => exitWith fns r.s.g (ev ++ r.events) 0 (some reason)
  | none => ⟨r.s.g, ev ++ r.events, .reading, none⟩

/-- The function `main`.  An argument error ends the run before `atexit` is reached. -/
def main (opts : List Opt) (env : Env) : Run :=
  match parseArgs {} opts with
  | .error e => exit_message [] {} [] e
  | .ok g0 =>
    -- line 199: atexit(CloseSerialPort)
    let fns := [AtexitFn.closeSerialPort]
    let l := locate env.createFile g0
    match l.exit with
    | some e => exit_message fns l.g l.events e
    | none =>
      if !env.getCommState then exit_message fns l.g l.events 1
      else if !env.setCommState then exit_message fns l.g l.events 1
      else if !env.setCommTimeouts then exit_message fns l.g l.events 1
      else runLoop fns l.events (loopStart l.g env) env.ticks

/-- The time of the last successful read among the given iterations, or `start` when none
of them read a byte: the reading of `lastchartime` that the specification gives. -/
def lastActivity (start : Nat) : List Tick → Nat
  | [] => start
  | t :: ts => lastActivity (if t.read.isSome then t.tRead else start) ts

/-! ## Concrete environments -/

/-- An environment in which exactly the device numbers of `devs` open (device `n` with
handle `1000 + n`) and the three configuration calls succeed. -/
def envWith (devs : List Int) (startTick : Nat) (c0 : Int) (ticks : List Tick) : Env where
  createFile := fun n => if n ∈ devs then 1000 + n else INVALID_HANDLE_VALUE
  getCommState := true
  setCommState := true
  setCommTimeouts := true
  startTick := startTick
  c0 := c0
  ticks := ticks

/-! ## Arithmetic of the machine types -/

theorem toInt32_of_range (v : Int) (h1 : -2147483648 ≤ v) (h2 : v < 2147483648) :
    toInt32 v = v := by
  unfold toInt32; omega

theorem toChar_range (b : Byte) : -128 ≤ toChar b ∧ toChar b < 128 := by
  have hb := b.isLt
  unfold toChar
  split <;> omega

theorem toUChar_toChar (b : Byte) : toUChar (toChar b) = b := by
  have hb := b.isLt
  apply Fin.ext
  unfold toUChar toChar
  simp only [Fin.ofNat, Fin.val_mk]
  split <;> omega

/-! ## The argument loop leaves the scan range and the counters alone -/

theorem parseOpt_frame (g g1 : Globals) (o : Opt) (h : parseOpt g o = .ok g1) :
    g1.hSerial = g.hSerial ∧ g1.scan_max = g.scan_max ∧ g1.scan_min = g.scan_min ∧
      g1.chars_read = g.chars_read := by
  cases o <;> simp only [parseOpt, Except.ok.injEq, reduceCtorEq] at h <;> subst h <;>
    exact ⟨rfl, rfl, rfl, rfl⟩

theorem parseArgs_frame (opts : List Opt) : ∀ (g g1 : Globals), parseArgs g opts = .ok g1 →
    g1.hSerial = g.hSerial ∧ g1.scan_max = g.scan_max ∧ g1.scan_min = g.scan_min ∧
      g1.chars_read = g.chars_read := by
  induction opts with
  | nil =>
    intro g g1 h
    simp only [parseArgs, Except.ok.injEq] at h
    subst h
    exact ⟨rfl, rfl, rfl, rfl⟩
  | cons o os ih =>
    intro g g1 h
    simp only [parseArgs] at h
    cases ho : parseOpt g o with
    | error e => rw [ho] at h; simp at h
    | ok g2 =>
      rw [ho] at h
      obtain ⟨a1, a2, a3, a4⟩ := parseOpt_frame g g2 o ho
      obtain ⟨b1, b2, b3, b4⟩ := ih g2 g1 h
      exact ⟨b1.trans a1, b2.trans a2, b3.trans a3, b4.trans a4⟩

theorem toInt32_range (v : Int) : -2147483648 ≤ toInt32 v ∧ toInt32 v < 2147483648 := by
  unfold toInt32; omega

theorem parseOpt_dev_range (g g1 : Globals) (o : Opt) (h : parseOpt g o = .ok g1)
    (hg : -2147483648 ≤ g.dev_number ∧ g.dev_number < 2147483648) :
    -2147483648 ≤ g1.dev_number ∧ g1.dev_number < 2147483648 := by
  cases o <;> simp only [parseOpt, Except.ok.injEq, reduceCtorEq] at h <;> subst h <;>
    first
      | exact hg
      | exact toInt32_range _

theorem parseArgs_dev_range (opts : List Opt) : ∀ (g g1 : Globals), parseArgs g opts = .ok g1 →
    (-2147483648 ≤ g.dev_number ∧ g.dev_number < 2147483648) →
    -2147483648 ≤ g1.dev_number ∧ g1.dev_number < 2147483648 := by
  induction opts with
  | nil =>
    intro g g1 h hg
    simp only [parseArgs, Except.ok.injEq] at h
    subst h
    exact hg
  | cons o os ih =>
    intro g g1 h hg
    simp only [parseArgs] at h
    cases ho : parseOpt g o with
    | error e => rw [ho] at h; simp at h
    | ok g2 =>
      rw [ho] at h
      exact ih g2 g1 h (parseOpt_dev_range g g2 o ho hg)

/-! ## The scan -/

theorem attempts_map_createFile (l : List Int) : attempts (l.map Event.createFile) = l := by
  induction l with
  | nil => rfl
  | cons a l ih => simp [attempts, ih]

theorem mem_countdown (k : Nat) : ∀ (n a : Int), a ∈ countdown n k ↔ n - k < a ∧ a ≤ n := by
  induction k with
  | zero => intro n a; simp only [countdown, List.not_mem_nil, false_iff]; omega
  | succ k ih =>
    intro n a
    simp only [countdown, List.mem_cons, ih]
    omega

theorem countdown_pairwise (k : Nat) : ∀ n : Int, (countdown n k).Pairwise (fun a b => b < a) := by
  induction k with
  | zero => intro n; simp [countdown]
  | succ k ih =>
    intro n
    simp only [countdown, List.pairwise_cons]
    refine ⟨?_, ih (n - 1)⟩
    intro b hb
    rw [mem_countdown] at hb
    omega

theorem countdown_nodup (n : Int) (k : Nat) : (countdown n k).Nodup := by
  have h := countdown_pairwise k n
  exact h.imp (fun hab => by omega)

/-- The scan over the full range it was given: either it stops at the greatest device number
of the range that opens, or nothing in the range opens and every number was tried. -/
theorem scanLoop_spec (cf : Int → HANDLE) : ∀ (fuel : Nat) (n : Int) (g : Globals),
    fuel = (n + 1 - g.scan_min).toNat →
    (∃ m, g.scan_min ≤ m ∧ m ≤ n ∧ cf m ≠ INVALID_HANDLE_VALUE ∧
        (∀ j, m < j → j ≤ n → cf j = INVALID_HANDLE_VALUE) ∧
        scanLoop cf fuel n g =
          ({ g with hSerial := cf m, dev_number := m },
            (countdown n (n + 1 - m).toNat).map Event.createFile)) ∨
    ((∀ j, g.scan_min ≤ j → j ≤ n → cf j = INVALID_HANDLE_VALUE) ∧
        scanLoop cf fuel n g =
          (if fuel = 0 then g else { g with hSerial := INVALID_HANDLE_VALUE },
            (countdown n fuel).map Event.createFile)) := by
  intro fuel
  induction fuel with
  | zero =>
    intro n g hf
    right
    refine ⟨fun j h1 h2 => ?_, rfl⟩
    omega
  | succ fuel ih =>
    intro n g hf
    have hn : n ≥ g.scan_min := by omega
    by_cases hc : cf n = INVALID_HANDLE_VALUE
    · have hf2 : fuel = (n - 1 + 1 - ({ g with hSerial := cf n } : Globals).scan_min).toNat := by
        show fuel = (n - 1 + 1 - g.scan_min).toNat
        omega
      rcases ih (n - 1) { g with hSerial := cf n } hf2 with ⟨m, h1, h2, h3, h4, h5⟩ | ⟨h1, h5⟩
      · left
        refine ⟨m, h1, by omega, h3, ?_, ?_⟩
        · intro j hj1 hj2
          by_cases hjn : j = n
          · rw [hjn]; exact hc
          · exact h4 j hj1 (by omega)
        · have e : (n + 1 - m).toNat = (n - 1 + 1 - m).toNat + 1 := by omega
          rw [hc] at h5
          simp only [scanLoop, hn, ↓reduceIte, hc, ne_eq, not_true_eq_false, h5, e, countdown,
            List.map_cons]
      · right
        refine ⟨?_, ?_⟩
        · intro j hj1 hj2
          by_cases hjn : j = n
          · rw [hjn]; exact hc
          · exact h1 j hj1 (by omega)
        · rw [hc] at h5
          simp only [scanLoop, hn, ↓reduceIte, hc, ne_eq, not_true_eq_false, h5, countdown,
            List.map_cons, Nat.add_one_ne_zero]
          split <;> rfl
    · left
      refine ⟨n, hn, le_refl n, hc, fun j h1 h2 => by omega, ?_⟩
      have e : (n + 1 - n).toNat = 1 := by omega
      simp only [scanLoop, hn, ↓reduceIte, ne_eq, hc, not_false_eq_true, e, countdown,
        List.map_cons, List.map_nil]

/-- Without an explicit device number the scan runs from 30 down to 1. -/
theorem locate_default (cf : Int → HANDLE) (g : Globals) (hdev : g.dev_number = -1)
    (hmax : g.scan_max = 30) (hmin : g.scan_min = 1) :
    (∃ m, 1 ≤ m ∧ m ≤ 30 ∧ cf m ≠ INVALID_HANDLE_VALUE ∧
        (∀ j, m < j → j ≤ 30 → cf j = INVALID_HANDLE_VALUE) ∧
        (locate cf g).exit = none ∧ (locate cf g).g.dev_number = m ∧
        (locate cf g).g.hSerial = cf m ∧
        attempts (locate cf g).events = countdown 30 (31 - m).toNat) ∨
    ((∀ j, 1 ≤ j → j ≤ 30 → cf j = INVALID_HANDLE_VALUE) ∧
        (locate cf g).exit = some 1 ∧ (locate cf g).g.hSerial = INVALID_HANDLE_VALUE ∧
        attempts (locate cf g).events = countdown 30 30) := by
  have hps : portScan cf g = scanLoop cf 30 30 g := by
    simp only [portScan, hdev, ne_eq, not_true_eq_false, ↓reduceIte, hmax, hmin]
    rfl
  have hf : (30 : Nat) = ((30 : Int) + 1 - g.scan_min).toNat := by rw [hmin]; rfl
  rcases scanLoop_spec cf 30 30 g hf with ⟨m, h1, h2, h3, h4, h5⟩ | ⟨h1, h5⟩
  · left
    rw [hmin] at h1
    refine ⟨m, h1, h2, h3, h4, ?_⟩
    simp only [locate, hps, h5, h3, ↓reduceIte, attempts_map_createFile]
    refine ⟨trivial, trivial, trivial, ?_⟩
    norm_num
  · right
    rw [hmin] at h1
    refine ⟨h1, ?_⟩
    simp [locate, hps, h5, attempts_map_createFile]

/-- With an explicit device number other than the value `-1` the scan is one attempt. -/
theorem locate_explicit (cf : Int → HANDLE) (g : Globals) (hdev : g.dev_number ≠ -1) :
    attempts (locate cf g).events = [g.dev_number] ∧
    (locate cf g).g.hSerial = cf g.dev_number ∧
    (locate cf g).g.dev_number = g.dev_number ∧
    ((locate cf g).exit = if cf g.dev_number = INVALID_HANDLE_VALUE then some 1 else none) := by
  have hps : portScan cf g =
      scanLoop cf 1 g.dev_number { g with scan_max := g.dev_number, scan_min := g.dev_number } := by
    simp only [portScan, hdev, ne_eq, not_false_eq_true, ↓reduceIte]
    congr 1
    omega
  by_cases hc : cf g.dev_number = INVALID_HANDLE_VALUE
  · simp [locate, hps, scanLoop, hc, attempts]
  · simp [locate, hps, scanLoop, hc, attempts]

/-- The scan writes `hSerial` and `dev_number` only, and records `CreateFileA` calls only. -/
theorem scanLoop_frame (cf : Int → HANDLE) : ∀ (fuel : Nat) (n : Int) (g : Globals),
    ∃ (h : HANDLE) (d : Int) (l : List Int),
      scanLoop cf fuel n g = ({ g with hSerial := h, dev_number := d }, l.map Event.createFile) := by
  intro fuel
  induction fuel with
  | zero => intro n g; exact ⟨g.hSerial, g.dev_number, [], rfl⟩
  | succ fuel ih =>
    intro n g
    by_cases hn : n ≥ g.scan_min
    · by_cases hc : cf n = INVALID_HANDLE_VALUE
      · obtain ⟨h, d, l, e⟩ := ih (n - 1) { g with hSerial := cf n }
        refine ⟨h, d, n :: l, ?_⟩
        rw [hc] at e
        simp only [scanLoop, hn, ↓reduceIte, hc, ne_eq, not_true_eq_false, e, List.map_cons]
      · refine ⟨cf n, n, [n], ?_⟩
        simp only [scanLoop, hn, ↓reduceIte, ne_eq, hc, not_false_eq_true, List.map_cons,
          List.map_nil]
    · refine ⟨g.hSerial, g.dev_number, [], ?_⟩
      simp only [scanLoop, hn, ↓reduceIte, List.map_nil]

theorem locate_frame (cf : Int → HANDLE) (g : Globals) :
    (locate cf g).g.charcount = g.charcount ∧ (locate cf g).g.endchar = g.endchar ∧
    (locate cf g).g.timeout_ms = g.timeout_ms ∧ (locate cf g).g.chars_read = g.chars_read ∧
    (locate cf g).g.simulate_keystrokes = g.simulate_keystrokes ∧
    (locate cf g).events = (attempts (locate cf g).events).map Event.createFile := by
  by_cases hd : g.dev_number = -1
  · obtain ⟨h, d, l, e⟩ := scanLoop_frame cf (g.scan_max + 1 - g.scan_min).toNat g.scan_max g
    have hps : portScan cf g = ({ g with hSerial := h, dev_number := d }, l.map Event.createFile) := by
      simp only [portScan, hd, ne_eq, not_true_eq_false, ↓reduceIte]
      exact e
    simp only [locate, hps]
    split <;> simp [attempts_map_createFile]
  · obtain ⟨h, d, l, e⟩ := scanLoop_frame cf (g.dev_number + 1 - g.dev_number).toNat g.dev_number
      { g with scan_max := g.dev_number, scan_min := g.dev_number }
    have hps : portScan cf g =
        ({ g with scan_max := g.dev_number, scan_min := g.dev_number, hSerial := h,
                  dev_number := d }, l.map Event.createFile) := by
      simp only [portScan, hd, ne_eq, not_false_eq_true, ↓reduceIte]
      exact e
    simp only [locate, hps]
    split <;> simp [attempts_map_createFile]

/-- What the scan leaves behind, for the scan range of the source and any request. -/
theorem locate_opened (cf : Int → HANDLE) (g : Globals) (hmax : g.scan_max = 30)
    (hmin : g.scan_min = 1) :
    ((locate cf g).exit = none ∧ (locate cf g).g.hSerial ≠ INVALID_HANDLE_VALUE ∧
        (locate cf g).g.hSerial = cf (locate cf g).g.dev_number ∧
        (locate cf g).g.dev_number ∈ attempts (locate cf g).events) ∨
    ((locate cf g).exit = some 1 ∧ (locate cf g).g.hSerial = INVALID_HANDLE_VALUE ∧
        ∀ n ∈ attempts (locate cf g).events, cf n = INVALID_HANDLE_VALUE) := by
  by_cases hd : g.dev_number = -1
  · rcases locate_default cf g hd hmax hmin with
      ⟨m, h1, h2, h3, h4, h5, h6, h7, h8⟩ | ⟨h1, h5, h7, h8⟩
    · left
      refine ⟨h5, by rw [h7]; exact h3, by rw [h7, h6], ?_⟩
      rw [h8, h6, mem_countdown]
      omega
    · right
      refine ⟨h5, h7, ?_⟩
      intro n hn
      rw [h8, mem_countdown] at hn
      exact h1 n (by omega) (by omega)
  · obtain ⟨h1, h2, h3, h4⟩ := locate_explicit cf g hd
    by_cases hc : cf g.dev_number = INVALID_HANDLE_VALUE
    · right
      rw [if_pos hc] at h4
      refine ⟨h4, by rw [h2]; exact hc, ?_⟩
      intro n hn
      rw [h1, List.mem_singleton] at hn
      rw [hn]; exact hc
    · left
      rw [if_neg hc] at h4
      refine ⟨h4, by rw [h2]; exact hc, by rw [h2, h3], ?_⟩
      rw [h1, h3]
      exact List.mem_singleton.mpr rfl

/-! ## Traces -/

theorem closedHandles_append (a b : List Event) :
    closedHandles (a ++ b) = closedHandles a ++ closedHandles b := by
  induction a with
  | nil => rfl
  | cons e a ih => cases e <;> simp [closedHandles, ih]

theorem attempts_append (a b : List Event) : attempts (a ++ b) = attempts a ++ attempts b := by
  induction a with
  | nil => rfl
  | cons e a ih => cases e <;> simp [attempts, ih]

theorem output_append (a b : List Event) : output (a ++ b) = output a ++ output b := by
  induction a with
  | nil => rfl
  | cons e a ih => cases e <;> simp [output, ih]

theorem closeCount_eq_length (a : List Event) : closeCount a = (closedHandles a).length := by
  induction a with
  | nil => rfl
  | cons e a ih => cases e <;> simp [closeCount, closedHandles, ih]

theorem closedHandles_map_createFile (l : List Int) :
    closedHandles (l.map Event.createFile) = [] := by
  induction l with
  | nil => rfl
  | cons a l ih => simp [closedHandles, ih]

theorem readAndForward_none (s : LoopState) (t : Tick) (h : t.read = none) :
    readAndForward s t = (s, []) := by
  simp [readAndForward, h]

theorem readAndForward_some_eq (s : LoopState) (t : Tick) (b : Byte) (h : t.read = some b)
    (hc : toChar b = s.g.endchar) : readAndForward s t = (⟨s.g, toChar b⟩, []) := by
  simp [readAndForward, h, hc]

theorem readAndForward_some_ne (s : LoopState) (t : Tick) (b : Byte) (h : t.read = some b)
    (hc : toChar b ≠ s.g.endchar) :
    readAndForward s t =
      (⟨{ s.g with lastchartime := t.tRead % U64, chars_read := toInt32 (s.g.chars_read + 1) },
          toChar b⟩,
        Event.printChar b ::
          (if s.g.simulate_keystrokes = 1 then [Event.keystroke (toChar b)] else [])) := by
  simp [readAndForward, h, hc, toUChar_toChar]

/-- One iteration closes nothing, opens nothing, and leaves the settings and the handle. -/
theorem loopBody_frame (s : LoopState) (t : Tick) :
    closedHandles (loopBody s t).2.1 = [] ∧ attempts (loopBody s t).2.1 = [] ∧
    (loopBody s t).1.g.hSerial = s.g.hSerial ∧ (loopBody s t).1.g.dev_number = s.g.dev_number ∧
    (loopBody s t).1.g.charcount = s.g.charcount ∧ (loopBody s t).1.g.endchar = s.g.endchar ∧
    (loopBody s t).1.g.timeout_ms = s.g.timeout_ms ∧
    (loopBody s t).1.g.simulate_keystrokes = s.g.simulate_keystrokes := by
  cases hr : t.read with
  | none => simp [loopBody, readAndForward_none s t hr, closedHandles, attempts]
  | some b =>
    by_cases hc : toChar b = s.g.endchar
    · simp [loopBody, readAndForward_some_eq s t b hr hc, closedHandles, attempts]
    · simp only [loopBody, readAndForward_some_ne s t b hr hc]
      split <;> simp [closedHandles, attempts]

theorem readLoop_frame (ticks : List Tick) : ∀ s : LoopState,
    closedHandles (readLoop s ticks).events = [] ∧ attempts (readLoop s ticks).events = [] ∧
    (readLoop s ticks).s.g.hSerial = s.g.hSerial ∧
    (readLoop s ticks).s.g.dev_number = s.g.dev_number ∧
    (readLoop s ticks).s.g.charcount = s.g.charcount ∧
    (readLoop s ticks).s.g.endchar = s.g.endchar ∧
    (readLoop s ticks).s.g.timeout_ms = s.g.timeout_ms := by
  induction ticks with
  | nil => intro s; simp [readLoop, closedHandles, attempts]
  | cons t ts ih =>
    intro s
    obtain ⟨h1, h2, h3, h4, h5, h6, h7, -⟩ := loopBody_frame s t
    simp only [readLoop]
    split
    · exact ⟨h1, h2, h3, h4, h5, h6, h7⟩
    · obtain ⟨i1, i2, i3, i4, i5, i6, i7⟩ := ih (loopBody s t).1
      simp only [closedHandles_append, attempts_append, h1, h2, i1, i2, List.append_nil]
      exact ⟨trivial, trivial, i3.trans h3, i4.trans h4, i5.trans h5, i6.trans h6, i7.trans h7⟩

/-! ## The exit tests -/

theorem exitTests_ne_byteLimit (s : LoopState) (t : Tick) (h : s.g.charcount ≤ 0) :
    exitTests s t ≠ some Reason.ByteLimitReached := by
  have h2 : ¬ (s.g.chars_read ≥ s.g.charcount ∧ s.g.charcount > 0) := by omega
  simp only [exitTests, h2, if_false]
  split
  · simp
  · split <;> simp

theorem readLoop_ne_byteLimit (ticks : List Tick) : ∀ s : LoopState, s.g.charcount ≤ 0 →
    (readLoop s ticks).reason ≠ some Reason.ByteLimitReached := by
  induction ticks with
  | nil => intro s _; simp [readLoop]
  | cons t ts ih =>
    intro s h
    have hb : (loopBody s t).1.g.charcount ≤ 0 := by
      rw [(loopBody_frame s t).2.2.2.2.1]; exact h
    simp only [readLoop]
    split
    · rename_i reason hr
      have := exitTests_ne_byteLimit (loopBody s t).1 t hb
      simp only [loopBody] at hr this ⊢
      rw [hr] at this
      exact this
    · exact ih _ hb

theorem exitTests_ne_idle_of_zero (s : LoopState) (t : Tick) (h : s.g.timeout_ms = 0) :
    exitTests s t ≠ some Reason.IdleTimeout := by
  have h2 : ¬ (subU64 t.tCheck s.g.lastchartime > s.g.timeout_ms ∧ s.g.timeout_ms > 0) := by
    omega
  simp only [exitTests, h2, if_false]
  split
  · simp
  · split <;> simp

/-- The terminator test fires exactly on `c == endchar && endchar >= 0`. -/
theorem exitTests_eq_terminator_iff (s : LoopState) (t : Tick) :
    exitTests s t = some Reason.TerminatorSeen ↔ s.c = s.g.endchar ∧ s.g.endchar ≥ 0 := by
  unfold exitTests
  split
  · rename_i h; simp [h]
  · rename_i h
    split
    · simp [h]
    · split <;> simp [h]

/-- With no terminator and no byte limit in force, the idle test decides alone. -/
theorem exitTests_idle_only (s : LoopState) (t : Tick) (hend : s.g.endchar < 0)
    (hcc : s.g.charcount ≤ 0) :
    exitTests s t =
      if subU64 t.tCheck s.g.lastchartime > s.g.timeout_ms ∧ s.g.timeout_ms > 0 then
        some Reason.IdleTimeout
      else none := by
  have h1 : ¬ (s.c = s.g.endchar ∧ s.g.endchar ≥ 0) := by omega
  have h2 : ¬ (s.g.chars_read ≥ s.g.charcount ∧ s.g.charcount > 0) := by omega
  simp only [exitTests, h1, h2, if_false]

/-- On a clock that has not wrapped, `ULONGLONG` subtraction is the elapsed time. -/
theorem subU64_of_le (now last : Nat) (h1 : last ≤ now) (h2 : now < U64) :
    subU64 now last = now - last := by
  unfold subU64 U64 at *
  omega

theorem subU64_mod_right (a b : Nat) : subU64 a (b % U64) = subU64 a b := by
  unfold subU64
  rw [Nat.mod_mod]

theorem toChar_injective (a b : Byte) (h : toChar a = toChar b) : a = b := by
  have ha := a.isLt
  have hb := b.isLt
  apply Fin.ext
  unfold toChar at h
  split at h <;> split at h <;> omega

theorem toChar_eq_of_lt_128 (b : Byte) (h : b.val < 128) : toChar b = (b.val : Int) := by
  unfold toChar
  rw [if_pos h]

theorem toChar_eq_neg_one_iff (b : Byte) : toChar b = -1 ↔ b = 255 := by
  have hb := b.isLt
  constructor
  · intro h
    apply Fin.ext
    unfold toChar at h
    show b.val = 255
    split at h <;> omega
  · intro h; subst h; decide

/-- An iteration whose read delivers a byte other than `endchar`. -/
theorem loopBody_forward (s : LoopState) (t : Tick) (b : Byte) (h : t.read = some b)
    (hc : toChar b ≠ s.g.endchar) :
    (loopBody s t).1 =
      ⟨{ s.g with lastchartime := t.tRead % U64, chars_read := toInt32 (s.g.chars_read + 1) },
        toChar b⟩ ∧
    output (loopBody s t).2.1 = [b] ∧
    (loopBody s t).2.2 = exitTests (loopBody s t).1 t := by
  simp only [loopBody, readAndForward_some_ne s t b h hc]
  refine ⟨trivial, ?_, trivial⟩
  split <;> simp [output]

/-- An iteration whose read delivers nothing. -/
theorem loopBody_no_byte (s : LoopState) (t : Tick) (h : t.read = none) :
    (loopBody s t).1 = s ∧ (loopBody s t).2.1 = [] ∧ (loopBody s t).2.2 = exitTests s t := by
  simp [loopBody, readAndForward_none s t h]

/-! ## The read loop on streams -/

theorem readLoop_cons_stop (s : LoopState) (t : Tick) (ts : List Tick) (r : Reason)
    (h : (loopBody s t).2.2 = some r) :
    readLoop s (t :: ts) = ⟨(loopBody s t).1, (loopBody s t).2.1, some r, 1⟩ := by
  simp only [readLoop, h]

theorem readLoop_cons_continue (s : LoopState) (t : Tick) (ts : List Tick)
    (h : (loopBody s t).2.2 = none) :
    readLoop s (t :: ts) =
      ⟨(readLoop (loopBody s t).1 ts).s, (loopBody s t).2.1 ++ (readLoop (loopBody s t).1 ts).events,
        (readLoop (loopBody s t).1 ts).reason, (readLoop (loopBody s t).1 ts).iterations + 1⟩ := by
  simp only [readLoop, h]

/-- The loop stops at the first `break`: the iterations after it are not consumed. -/
theorem readLoop_iterations_le (ticks : List Tick) : ∀ s : LoopState,
    (readLoop s ticks).iterations ≤ ticks.length := by
  induction ticks with
  | nil => intro s; simp [readLoop]
  | cons t ts ih =>
    intro s
    cases h : (loopBody s t).2.2 with
    | some r => rw [readLoop_cons_stop s t ts r h]; simp
    | none =>
      rw [readLoop_cons_continue s t ts h]
      have := ih (loopBody s t).1
      simp only [List.length_cons]
      omega

/-- Forwarding, away from the value of `endchar`: as long as no byte read has the `char`
value held in `endchar`, the output is the sequence of the bytes read, in order, over the
iterations executed. -/
theorem readLoop_output (ticks : List Tick) : ∀ s : LoopState,
    (∀ t ∈ ticks, ∀ b, t.read = some b → toChar b ≠ s.g.endchar) →
    output (readLoop s ticks).events =
      (ticks.take (readLoop s ticks).iterations).filterMap (fun t => t.read) := by
  induction ticks with
  | nil => intro s _; simp [readLoop, output]
  | cons t ts ih =>
    intro s hall
    have hout : output (loopBody s t).2.1 = [t].filterMap (fun t => t.read) := by
      cases hr : t.read with
      | none => simp [(loopBody_no_byte s t hr).2.1, output, hr]
      | some b =>
        have hc := hall t (List.mem_cons_self _ _) b hr
        simp [(loopBody_forward s t b hr hc).2.1, hr]
    cases h : (loopBody s t).2.2 with
    | some r =>
      rw [readLoop_cons_stop s t ts r h]
      simpa using hout
    | none =>
      rw [readLoop_cons_continue s t ts h]
      have he : (loopBody s t).1.g.endchar = s.g.endchar := (loopBody_frame s t).2.2.2.2.2.1
      have hrest := ih (loopBody s t).1 (fun t2 ht2 b hb => by
        rw [he]; exact hall t2 (List.mem_cons_of_mem _ ht2) b hb)
      simp only [output_append, hout, hrest, List.take_succ_cons, List.filterMap_cons]
      cases hr : t.read <;> simp [hr]

/-- The terminator test after a read that delivered nothing looks at the stale `c`. -/
theorem no_byte_terminator_iff (s : LoopState) (t : Tick) (h : t.read = none) :
    (loopBody s t).2.2 = some Reason.TerminatorSeen ↔ s.c = s.g.endchar ∧ s.g.endchar ≥ 0 := by
  rw [(loopBody_no_byte s t h).2.2]
  exact exitTests_eq_terminator_iff s t

/-- Once an iteration has completed without a `break`, a later read that delivers nothing
cannot fire the terminator test: the stale `c` that fires it is the one the loop was
entered with. -/
theorem no_byte_after_completed_iteration (s : LoopState) (t t2 : Tick)
    (h : (loopBody s t).2.2 = none) (h2 : t2.read = none) :
    (loopBody (loopBody s t).1 t2).2.2 ≠ some Reason.TerminatorSeen := by
  intro hfire
  have hc := (no_byte_terminator_iff _ t2 h2).mp hfire
  have h3 : exitTests (loopBody s t).1 t = some Reason.TerminatorSeen :=
    (exitTests_eq_terminator_iff _ t).mpr hc
  have h4 : (loopBody s t).2.2 = exitTests (loopBody s t).1 t := rfl
  rw [h4, h3] at h
  cases h

/-- A terminator value above 0x7F, as `/endhex` stores it, is never seen: `c` is a `char`
and stays below 128, so `c == endchar` is false in every iteration, on every stream. -/
theorem terminator_above_0x7F_never_seen (ticks : List Tick) : ∀ s : LoopState,
    128 ≤ s.g.endchar → s.c < 128 →
    (readLoop s ticks).reason ≠ some Reason.TerminatorSeen := by
  induction ticks with
  | nil => intro s _ _; simp [readLoop]
  | cons t ts ih =>
    intro s hend hc
    have he : (loopBody s t).1.g.endchar = s.g.endchar := (loopBody_frame s t).2.2.2.2.2.1
    have hc2 : (loopBody s t).1.c < 128 := by
      cases hrd : t.read with
      | none => rw [(loopBody_no_byte s t hrd).1]; exact hc
      | some b =>
        by_cases hcb : toChar b = s.g.endchar
        · simp only [loopBody, readAndForward_some_eq s t b hrd hcb]
          exact (toChar_range b).2
        · rw [(loopBody_forward s t b hrd hcb).1]
          exact (toChar_range b).2
    cases hr : (loopBody s t).2.2 with
    | some r =>
      rw [readLoop_cons_stop s t ts r hr]
      intro h
      simp only [Option.some.injEq] at h
      subst h
      have h4 : (loopBody s t).2.2 = exitTests (loopBody s t).1 t := rfl
      rw [h4] at hr
      have := (exitTests_eq_terminator_iff _ t).mp hr
      omega
    | none =>
      rw [readLoop_cons_continue s t ts hr]
      exact ih _ (by rw [he]; exact hend) hc2

/-- A terminator below 0x80 is seen: on a stream of successful reads whose first occurrence
of `T` follows the bytes of `pre`, with no byte limit and the idle test not firing, the loop
forwards the bytes of `pre` and leaves through the terminator test on reading `T`. -/
theorem terminator_below_0x80_seen (T : Byte) (hT : T.val < 128) (pre : List Tick) :
    ∀ (s : LoopState) (tk : Tick) (rest : List Tick),
      s.g.endchar = (T.val : Int) → s.g.charcount ≤ 0 →
      (∀ t ∈ pre, ∃ b, t.read = some b ∧ b ≠ T) →
      (∀ t ∈ pre, ¬ (subU64 t.tCheck t.tRead > s.g.timeout_ms ∧ s.g.timeout_ms > 0)) →
      tk.read = some T →
      (readLoop s (pre ++ tk :: rest)).reason = some Reason.TerminatorSeen ∧
      output (readLoop s (pre ++ tk :: rest)).events = pre.filterMap (fun t => t.read) ∧
      (readLoop s (pre ++ tk :: rest)).iterations = pre.length + 1 := by
  induction pre with
  | nil =>
    intro s tk rest hend _ _ _ htk
    have hc : toChar T = s.g.endchar := by rw [toChar_eq_of_lt_128 T hT, hend]
    have hb : loopBody s tk = (⟨s.g, toChar T⟩, [], some Reason.TerminatorSeen) := by
      simp only [loopBody, readAndForward_some_eq s tk T htk hc]
      have : exitTests ⟨s.g, toChar T⟩ tk = some Reason.TerminatorSeen :=
        (exitTests_eq_terminator_iff _ tk).mpr ⟨hc, by rw [hend]; omega⟩
      rw [this]
    have hstop := readLoop_cons_stop s tk rest Reason.TerminatorSeen (by rw [hb])
    simp only [List.nil_append, hstop, hb]
    simp [output]
  | cons t pre ih =>
    intro s tk rest hend hcc hpre hidle htk
    obtain ⟨b, hb, hbT⟩ := hpre t (List.mem_cons_self _ _)
    have hc : toChar b ≠ s.g.endchar := by
      rw [hend, ← toChar_eq_of_lt_128 T hT]
      exact fun h => hbT (toChar_injective b T h)
    obtain ⟨f1, f2, f3⟩ := loopBody_forward s t b hb hc
    have hi := hidle t (List.mem_cons_self _ _)
    have hnone : (loopBody s t).2.2 = none := by
      rw [f3, f1]
      have h1 : ¬ (toChar b = s.g.endchar ∧ s.g.endchar ≥ 0) := fun h => hc h.1
      have h3 : ¬ (toInt32 (s.g.chars_read + 1) ≥ s.g.charcount ∧ s.g.charcount > 0) := by omega
      simp only [exitTests, h1, subU64_mod_right, hi, h3, if_false]
    have hrec := ih (loopBody s t).1 tk rest (by rw [f1]; exact hend) (by rw [f1]; exact hcc)
      (fun t2 ht2 => hpre t2 (List.mem_cons_of_mem _ ht2))
      (fun t2 ht2 => by rw [f1]; exact hidle t2 (List.mem_cons_of_mem _ ht2)) htk
    rw [List.cons_append, readLoop_cons_continue s t _ hnone]
    simp only [output_append, f2, hrec.1, hrec.2.1, hrec.2.2, List.filterMap_cons, hb,
      List.length_cons, List.singleton_append, and_self]

/-- The byte limit is reached: with no terminator configured, a stream of successful reads
free of the byte 0xFF and the idle test not firing, the loop forwards the bytes up to the
limit `N` and leaves through the byte-count test with `chars_read = N`. -/
theorem byte_limit_reached_without_0xFF (N : Int) (hN : N < 2147483648) (ticks : List Tick) :
    ∀ (s : LoopState),
      s.g.endchar = -1 → s.g.charcount = N → 0 ≤ s.g.chars_read → s.g.chars_read < N →
      (∀ t ∈ ticks, ∃ b, t.read = some b ∧ b ≠ 255) →
      (∀ t ∈ ticks, ¬ (subU64 t.tCheck t.tRead > s.g.timeout_ms ∧ s.g.timeout_ms > 0)) →
      (N - s.g.chars_read).toNat ≤ ticks.length →
      (readLoop s ticks).reason = some Reason.ByteLimitReached ∧
      output (readLoop s ticks).events =
        (ticks.take (N - s.g.chars_read).toNat).filterMap (fun t => t.read) ∧
      (readLoop s ticks).s.g.chars_read = N ∧
      (readLoop s ticks).iterations = (N - s.g.chars_read).toNat := by
  induction ticks with
  | nil =>
    intro s _ _ _ hlt _ _ hlen
    simp only [List.length_nil] at hlen
    omega
  | cons t ts ih =>
    intro s hend hcc h0 hlt hall hidle hlen
    obtain ⟨b, hb, hb255⟩ := hall t (List.mem_cons_self _ _)
    have hc : toChar b ≠ s.g.endchar := by
      rw [hend]
      exact fun h => hb255 ((toChar_eq_neg_one_iff b).mp h)
    obtain ⟨f1, f2, f3⟩ := loopBody_forward s t b hb hc
    have hi := hidle t (List.mem_cons_self _ _)
    have hcr : toInt32 (s.g.chars_read + 1) = s.g.chars_read + 1 :=
      toInt32_of_range _ (by omega) (by omega)
    have h1 : ¬ (toChar b = s.g.endchar ∧ s.g.endchar ≥ 0) := fun h => hc h.1
    have hk : (N - s.g.chars_read).toNat = (N - (s.g.chars_read + 1)).toNat + 1 := by omega
    by_cases hlast : s.g.chars_read + 1 = N
    · have hfire : (loopBody s t).2.2 = some Reason.ByteLimitReached := by
        rw [f3, f1]
        have h3 : toInt32 (s.g.chars_read + 1) ≥ s.g.charcount ∧ s.g.charcount > 0 := by
          rw [hcr, hcc]; omega
        simp only [exitTests, h1, subU64_mod_right, hi, h3, if_false, if_true, and_self]
      rw [readLoop_cons_stop s t ts _ hfire, f1, f2]
      have hz : (N - s.g.chars_read).toNat = 1 := by omega
      simp only [hz, List.take_succ_cons, List.take_zero, List.filterMap_cons, hb,
        List.filterMap_nil, true_and]
      exact ⟨hcr.trans hlast, trivial⟩
    · have hnone : (loopBody s t).2.2 = none := by
        rw [f3, f1]
        have h3 : ¬ (toInt32 (s.g.chars_read + 1) ≥ s.g.charcount ∧ s.g.charcount > 0) := by
          rw [hcr, hcc]; omega
        simp only [exitTests, h1, subU64_mod_right, hi, h3, if_false]
      have hrec := ih (loopBody s t).1 (by rw [f1]; exact hend) (by rw [f1]; exact hcc)
        (by rw [f1]; show 0 ≤ toInt32 (s.g.chars_read + 1); rw [hcr]; omega)
        (by rw [f1]; show toInt32 (s.g.chars_read + 1) < N; rw [hcr]; omega)
        (fun t2 ht2 => hall t2 (List.mem_cons_of_mem _ ht2))
        (fun t2 ht2 => by rw [f1]; exact hidle t2 (List.mem_cons_of_mem _ ht2))
        (by
          rw [f1]
          show (N - toInt32 (s.g.chars_read + 1)).toNat ≤ ts.length
          rw [hcr]
          simp only [List.length_cons] at hlen
          omega)
      have hcr2 : (loopBody s t).1.g.chars_read = s.g.chars_read + 1 := by rw [f1]; exact hcr
      rw [hcr2] at hrec
      rw [readLoop_cons_continue s t ts hnone]
      simp only [output_append, f2, hrec.1, hrec.2.1, hrec.2.2.1, hrec.2.2.2, hk,
        List.take_succ_cons, List.filterMap_cons, hb, List.singleton_append, and_self]

/-- A timeout of zero disables the idle test. -/
theorem readLoop_ne_idle_of_zero (ticks : List Tick) : ∀ s : LoopState, s.g.timeout_ms = 0 →
    (readLoop s ticks).reason ≠ some Reason.IdleTimeout := by
  induction ticks with
  | nil => intro s _; simp [readLoop]
  | cons t ts ih =>
    intro s h
    have hb : (loopBody s t).1.g.timeout_ms = 0 := by
      rw [(loopBody_frame s t).2.2.2.2.2.2.1]; exact h
    cases hr : (loopBody s t).2.2 with
    | some r =>
      rw [readLoop_cons_stop s t ts r hr]
      have := exitTests_ne_idle_of_zero (loopBody s t).1 t hb
      have h4 : (loopBody s t).2.2 = exitTests (loopBody s t).1 t := rfl
      rw [← h4, hr] at this
      exact this
    | none =>
      rw [readLoop_cons_continue s t ts hr]
      exact ih _ hb

/-- The idle test on a clock that has not wrapped: with a positive timeout `D` and neither
terminator nor byte limit in force, an iteration leaves the loop exactly when the time
elapsed since `lastchartime` exceeds `D`, and then through the idle test. -/
theorem idle_test_exact (s : LoopState) (t : Tick) (hend : s.g.endchar < 0)
    (hcc : s.g.charcount ≤ 0) (hD : 0 < s.g.timeout_ms) (hclock : s.g.lastchartime ≤ t.tCheck)
    (hnow : t.tCheck < U64) :
    (t.tCheck - s.g.lastchartime ≤ s.g.timeout_ms → exitTests s t = none) ∧
    (t.tCheck - s.g.lastchartime > s.g.timeout_ms →
      exitTests s t = some Reason.IdleTimeout) := by
  rw [exitTests_idle_only s t hend hcc, subU64_of_le _ _ hclock hnow]
  constructor
  · intro h
    have : ¬ (t.tCheck - s.g.lastchartime > s.g.timeout_ms ∧ s.g.timeout_ms > 0) := by omega
    rw [if_neg this]
  · intro h
    rw [if_pos ⟨h, hD⟩]

/-- With no terminator configured and a stream free of the byte 0xFF, `lastchartime` is the
time of the last successful read, or of loop start, for as long as the loop runs. -/
theorem lastchartime_tracks_reads (ticks : List Tick) : ∀ s : LoopState,
    s.g.endchar = -1 → s.g.lastchartime < U64 →
    (∀ t ∈ ticks, t.read ≠ some 255 ∧ t.tRead < U64) →
    (readLoop s ticks).reason = none →
    (readLoop s ticks).s.g.lastchartime = lastActivity s.g.lastchartime ticks := by
  induction ticks with
  | nil => intro s _ _ _ _; rfl
  | cons t ts ih =>
    intro s hend hlast hall hrun
    obtain ⟨h255, htr⟩ := hall t (List.mem_cons_self _ _)
    cases hr : (loopBody s t).2.2 with
    | some r => rw [readLoop_cons_stop s t ts r hr] at hrun; cases hrun
    | none =>
      rw [readLoop_cons_continue s t ts hr] at hrun ⊢
      have hend2 : (loopBody s t).1.g.endchar = -1 := by
        rw [(loopBody_frame s t).2.2.2.2.2.1]; exact hend
      have hstep : (loopBody s t).1.g.lastchartime =
          (if t.read.isSome then t.tRead else s.g.lastchartime) := by
        cases hrd : t.read with
        | none => rw [(loopBody_no_byte s t hrd).1]; rfl
        | some b =>
          have hc : toChar b ≠ s.g.endchar := by
            rw [hend]
            intro h
            rw [(toChar_eq_neg_one_iff b).mp h] at hrd
            exact h255 hrd
          rw [(loopBody_forward s t b hrd hc).1]
          exact Nat.mod_eq_of_lt htr
      have hlast2 : (loopBody s t).1.g.lastchartime < U64 := by
        rw [hstep]; split <;> assumption
      have := ih (loopBody s t).1 hend2 hlast2
        (fun t2 ht2 => hall t2 (List.mem_cons_of_mem _ ht2)) hrun
      simp only [lastActivity, ← hstep]
      exact this

/-! ## The program as a whole -/

/-- The three ways a run goes: it ends before the scan (argument error), it ends with exit
code 1 after the scan, or it enters the read loop with a port open. -/
theorem main_cases (opts : List Opt) (env : Env) :
    (∃ e, parseArgs {} opts = .error e ∧ main opts env = ⟨{}, [], .exited e, none⟩) ∨
    (∃ g0, parseArgs {} opts = .ok g0 ∧
      ((main opts env = exit_message [AtexitFn.closeSerialPort] (locate env.createFile g0).g
          (locate env.createFile g0).events 1) ∨
       ((locate env.createFile g0).exit = none ∧
          main opts env = runLoop [AtexitFn.closeSerialPort] (locate env.createFile g0).events
            (loopStart (locate env.createFile g0).g env) env.ticks))) := by
  cases hp : parseArgs {} opts with
  | error e =>
    left
    exact ⟨e, rfl, by simp [main, hp, exit_message, exitWith, runAtexit]⟩
  | ok g0 =>
    right
    refine ⟨g0, rfl, ?_⟩
    cases hl : (locate env.createFile g0).exit with
    | some e =>
      left
      have he : e = 1 := by
        simp only [locate] at hl
        split at hl <;> simp at hl
        exact hl.symm
      subst he
      simp [main, hp, hl]
    | none =>
      by_cases h1 : env.getCommState = true
      · by_cases h2 : env.setCommState = true
        · by_cases h3 : env.setCommTimeouts = true
          · right
            exact ⟨rfl, by simp [main, hp, hl, h1, h2, h3]⟩
          · left; simp [main, hp, hl, h1, h2, h3]
        · left; simp [main, hp, hl, h1, h2]
      · left; simp [main, hp, hl, h1]

theorem exitWith_closeSerialPort (g : Globals) (ev : List Event) (code : Int)
    (reason : Option Reason) :
    exitWith [AtexitFn.closeSerialPort] g ev code reason =
      ⟨g, ev ++ (if g.hSerial ≠ INVALID_HANDLE_VALUE then [Event.closeHandle g.hSerial] else []),
        .exited code, reason⟩ := by
  by_cases h : g.hSerial = INVALID_HANDLE_VALUE <;>
    simp [exitWith, runAtexit, AtexitFn.call, CloseSerialPort, h]

/-- A run that has ended either opened a port and closed its handle once, at exit, or
opened none and closed nothing. -/
theorem main_exited (opts : List Opt) (env : Env) (code : Int)
    (hexit : (main opts env).status = .exited code) :
    ((main opts env).g.hSerial ≠ INVALID_HANDLE_VALUE ∧
      (main opts env).g.hSerial = env.createFile (main opts env).g.dev_number ∧
      (main opts env).g.dev_number ∈ attempts (main opts env).events ∧
      closedHandles (main opts env).events = [(main opts env).g.hSerial]) ∨
    ((∀ n ∈ attempts (main opts env).events, env.createFile n = INVALID_HANDLE_VALUE) ∧
      closedHandles (main opts env).events = []) := by
  rcases main_cases opts env with ⟨e, -, hm⟩ | ⟨g0, hp, hm | ⟨hl, hm⟩⟩
  · right
    rw [hm]
    simp [attempts, closedHandles]
  · obtain ⟨-, hmax, hmin, -⟩ := parseArgs_frame opts {} g0 hp
    have hev := (locate_frame env.createFile g0).2.2.2.2.2
    rw [hm, exit_message, exitWith_closeSerialPort]
    rcases locate_opened env.createFile g0 hmax hmin with ⟨-, h2, h3, h4⟩ | ⟨-, h2, h3⟩
    · left
      refine ⟨h2, h3, ?_, ?_⟩
      · simp only [attempts_append]
        exact List.mem_append_left _ h4
      · rw [closedHandles_append, hev, closedHandles_map_createFile]
        simp [h2, closedHandles]
    · right
      simp only [h2, ne_eq, not_true_eq_false, ↓reduceIte, List.append_nil]
      refine ⟨h3, ?_⟩
      rw [hev, closedHandles_map_createFile]
  · obtain ⟨-, hmax, hmin, -⟩ := parseArgs_frame opts {} g0 hp
    have hev := (locate_frame env.createFile g0).2.2.2.2.2
    obtain ⟨f1, f2, f3, f4, -⟩ := readLoop_frame env.ticks (loopStart (locate env.createFile g0).g env)
    rw [hm] at hexit ⊢
    simp only [runLoop] at hexit ⊢
    split at hexit
    · rename_i reason hr
      simp only [hr, exitWith_closeSerialPort]
      rcases locate_opened env.createFile g0 hmax hmin with ⟨-, h2, h3, h4⟩ | ⟨h1, -⟩
      · left
        have f3a : (readLoop (loopStart (locate env.createFile g0).g env) env.ticks).s.g.hSerial =
            (locate env.createFile g0).g.hSerial := f3
        have f4a : (readLoop (loopStart (locate env.createFile g0).g env)
            env.ticks).s.g.dev_number = (locate env.createFile g0).g.dev_number := f4
        simp only [f3a, f4a]
        refine ⟨h2, h3, ?_, ?_⟩
        · simp only [attempts_append]
          exact List.mem_append_left _ (List.mem_append_left _ h4)
        · rw [closedHandles_append, closedHandles_append, hev, closedHandles_map_createFile, f1]
          simp [h2, closedHandles]
      · rw [hl] at h1; cases h1
    · cases hexit

/-! ## Claims -/

/-- C1 fails for terminators above 0x7F.  With `/endhex FF` and the stream `61 FF 62` the
byte `FF` is read as `c = -1`, which differs from `endchar = 255`: it is forwarded like any
other byte and the loop goes on reading.  With `/endchar` and the byte `E9`, `endchar` is
`-23`: the byte `E9` of the stream is dropped, but `endchar >= 0` fails and the loop goes on
as well. -/
theorem C1_terminator_above_0x7F_is_never_seen :
    output (main [Opt.endhex 255]
      (envWith [1] 0 0 [⟨some 0x61, 1, 1⟩, ⟨some 0xFF, 2, 2⟩, ⟨some 0x62, 3, 3⟩])).events =
        [0x61, 0xFF, 0x62] ∧
    (main [Opt.endhex 255]
      (envWith [1] 0 0 [⟨some 0x61, 1, 1⟩, ⟨some 0xFF, 2, 2⟩, ⟨some 0x62, 3, 3⟩])).status =
        Status.reading ∧
    (main [Opt.endhex 255]
      (envWith [1] 0 0 [⟨some 0x61, 1, 1⟩, ⟨some 0xFF, 2, 2⟩, ⟨some 0x62, 3, 3⟩])).g.chars_read =
        3 ∧
    output (main [Opt.endchar 0xE9]
      (envWith [1] 0 0 [⟨some 0x61, 1, 1⟩, ⟨some 0xE9, 2, 2⟩, ⟨some 0x62, 3, 3⟩])).events =
        [0x61, 0x62] ∧
    (main [Opt.endchar 0xE9]
      (envWith [1] 0 0 [⟨some 0x61, 1, 1⟩, ⟨some 0xE9, 2, 2⟩, ⟨some 0x62, 3, 3⟩])).status =
        Status.reading := by
  decide

/-- C2 fails when the stream holds the byte 0xFF and no terminator is configured: read as
`c = -1` it equals the initial `endchar = -1` and is neither forwarded nor counted.  With
`/charcount 2` and the stream `41 FF 42 43` the run ends through the byte-count test with
output `41 42`, not the first two bytes; with `/charcount 1` and the stream `FF` nothing is
forwarded and the loop goes on. -/
theorem C2_byte_0xFF_is_not_counted :
    (main [Opt.charcount 2] (envWith [1] 0 0
      [⟨some 0x41, 1, 1⟩, ⟨some 0xFF, 2, 2⟩, ⟨some 0x42, 3, 3⟩, ⟨some 0x43, 4, 4⟩])).reason =
        some Reason.ByteLimitReached ∧
    output (main [Opt.charcount 2] (envWith [1] 0 0
      [⟨some 0x41, 1, 1⟩, ⟨some 0xFF, 2, 2⟩, ⟨some 0x42, 3, 3⟩, ⟨some 0x43, 4, 4⟩])).events =
        [0x41, 0x42] ∧
    (main [Opt.charcount 1] (envWith [1] 0 0 [⟨some 0xFF, 1, 1⟩])).status = Status.reading ∧
    output (main [Opt.charcount 1] (envWith [1] 0 0 [⟨some 0xFF, 1, 1⟩])).events = [] ∧
    (main [Opt.charcount 1] (envWith [1] 0 0 [⟨some 0xFF, 1, 1⟩])).g.chars_read = 0 := by
  decide

/-- C3 fails when the bytes read are 0xFF and no terminator is configured: such a read does
not update `lastchartime`.  With `/timeout 100`, loop start at tick 0, and the byte `FF`
read at tick 50 and again at tick 110, the test at tick 120 ends the run with the idle
timeout, 10 ms after the last successful read; `lastchartime` is still 0. -/
theorem C3_read_of_0xFF_does_not_reset_idle_time :
    (main [Opt.timeout 100]
      (envWith [1] 0 0 [⟨some 0xFF, 50, 60⟩, ⟨some 0xFF, 110, 120⟩])).reason =
        some Reason.IdleTimeout ∧
    (main [Opt.timeout 100]
      (envWith [1] 0 0 [⟨some 0xFF, 50, 60⟩, ⟨some 0xFF, 110, 120⟩])).g.lastchartime = 0 ∧
    (main [Opt.timeout 100]
      (envWith [1] 0 0 [⟨some 0xFF, 50, 60⟩, ⟨some 0xFF, 110, 120⟩])).g.timeout_ms = 100 ∧
    subU64 120 110 ≤ 100 := by
  decide

/-- C4. When no explicit device number is requested (`dev_number` is still `-1` after the
argument loop), then for every behaviour `createFile` of the devices: the scan fails with
exit code 1 exactly when no number in 1..30 opens, and otherwise it succeeds and selects
the greatest number in 1..30 that opens, leaving its handle in `hSerial`.  The numbers
tried are 30, 29, ... down to the selected one (all of 30..1 on failure), so each is tried
at most once and none below the selected one. -/
theorem C4_scan_selects_greatest_working_index (opts : List Opt) (g : Globals)
    (createFile : Int → HANDLE) (hparse : parseArgs {} opts = .ok g)
    (hdev : g.dev_number = -1) :
    ((locate createFile g).exit = some 1 ↔
        ∀ n, 1 ≤ n → n ≤ 30 → createFile n = INVALID_HANDLE_VALUE) ∧
    ((locate createFile g).exit = none ↔
        ∃ n, 1 ≤ n ∧ n ≤ 30 ∧ createFile n ≠ INVALID_HANDLE_VALUE) ∧
    ((locate createFile g).exit = none →
        1 ≤ (locate createFile g).g.dev_number ∧ (locate createFile g).g.dev_number ≤ 30 ∧
        createFile (locate createFile g).g.dev_number ≠ INVALID_HANDLE_VALUE ∧
        (locate createFile g).g.hSerial = createFile (locate createFile g).g.dev_number ∧
        (∀ n, 1 ≤ n → n ≤ 30 → createFile n ≠ INVALID_HANDLE_VALUE →
          n ≤ (locate createFile g).g.dev_number) ∧
        attempts (locate createFile g).events =
          countdown 30 (31 - (locate createFile g).g.dev_number).toNat ∧
        ∀ a ∈ attempts (locate createFile g).events, (locate createFile g).g.dev_number ≤ a) ∧
    ((locate createFile g).exit = some 1 →
        attempts (locate createFile g).events = countdown 30 30) ∧
    (attempts (locate createFile g).events).Nodup := by
  obtain ⟨-, hmax, hmin, -⟩ := parseArgs_frame opts {} g hparse
  rcases locate_default createFile g hdev hmax hmin with
    ⟨m, h1, h2, h3, h4, h5, h6, h7, h8⟩ | ⟨h1, h5, h7, h8⟩
  · refine ⟨?_, ?_, ?_, ?_, ?_⟩
    · rw [h5]
      constructor
      · intro h; cases h
      · intro h; exact absurd (h m h1 h2) h3
    · rw [h5]
      exact ⟨fun _ => ⟨m, h1, h2, h3⟩, fun _ => rfl⟩
    · intro _
      rw [h6, h7, h8]
      refine ⟨h1, h2, h3, rfl, ?_, rfl, ?_⟩
      · intro n hn1 hn2 hn3
        by_contra hlt
        exact hn3 (h4 n (by omega) hn2)
      · intro a ha
        rw [mem_countdown] at ha
        omega
    · rw [h5]; intro h; cases h
    · rw [h8]; exact countdown_nodup _ _
  · refine ⟨?_, ?_, ?_, ?_, ?_⟩
    · rw [h5]
      exact ⟨fun _ => h1, fun _ => rfl⟩
    · rw [h5]
      constructor
      · intro h; cases h
      · rintro ⟨n, hn1, hn2, hn3⟩; exact absurd (h1 n hn1 hn2) hn3
    · rw [h5]; intro h; cases h
    · intro _; exact h8
    · rw [h8]; exact countdown_nodup _ _

/-- Witness for C4: no option on the command line, devices 7 and 3 open. -/
theorem C4_scan_selects_greatest_working_index_witness :
    parseArgs {} [] = .ok {} ∧ ({} : Globals).dev_number = -1 ∧
    (locate (envWith [7, 3] 0 0 []).createFile {}).exit = none ∧
    (locate (envWith [7, 3] 0 0 []).createFile {}).g.dev_number = 7 ∧
    attempts (locate (envWith [7, 3] 0 0 []).createFile {}).events =
      [30, 29, 28, 27, 26, 25, 24, 23, 22, 21, 20, 19, 18, 17, 16, 15, 14, 13, 12, 11, 10,
        9, 8, 7] := by
  have h := C4_scan_selects_greatest_working_index [] {} (envWith [7, 3] 0 0 []).createFile
    rfl rfl
  have hex : (locate (envWith [7, 3] 0 0 []).createFile {}).exit = none :=
    h.2.1.mpr ⟨7, by decide, by decide, by decide⟩
  have hdev : (locate (envWith [7, 3] 0 0 []).createFile {}).g.dev_number = 7 := by decide
  refine ⟨rfl, rfl, hex, hdev, ?_⟩
  rw [(h.2.2.1 hex).2.2.2.2.2.1, hdev]
  rfl

/-- C5, as stated, fails at `/devnum -1`: with only device 29 present the run tries devices
30 and 29, never device -1, and instead of failing it opens device 29. -/
theorem C5_counterexample_devnum_minus_one :
    attempts (main [Opt.devnum (-1)] (envWith [29] 0 0 [])).events = [30, 29] ∧
    (main [Opt.devnum (-1)] (envWith [29] 0 0 [])).g.dev_number = 29 ∧
    (main [Opt.devnum (-1)] (envWith [29] 0 0 [])).g.hSerial = 1029 ∧
    (main [Opt.devnum (-1)] (envWith [29] 0 0 [])).status = Status.reading ∧
    (envWith [29] 0 0 []).createFile (-1) = INVALID_HANDLE_VALUE := by
  decide

/-- C5 (amended). For every explicit device number `d` given with `/devnum`, other than
`-1` (the value that stands for "not given") and above `INT_MIN`: the scan calls
`CreateFileA` for device `d` and for no other device; it selects `d` when `d` opens, and
otherwise ends the run with exit code 1, whatever the other devices would answer.  (The
last conjunct: the `--n` that follows a failed attempt is exact in `int`.) -/
theorem C5_explicit_devnum_tries_only_that_device (opts : List Opt) (g : Globals)
    (createFile : Int → HANDLE) (d : Int) (hparse : parseArgs {} opts = .ok g)
    (hd : g.dev_number = d) (hne : d ≠ -1) (hmin : -2147483648 < d) :
    attempts (locate createFile g).events = [d] ∧
    (createFile d ≠ INVALID_HANDLE_VALUE →
      (locate createFile g).exit = none ∧ (locate createFile g).g.dev_number = d ∧
      (locate createFile g).g.hSerial = createFile d) ∧
    (createFile d = INVALID_HANDLE_VALUE → (locate createFile g).exit = some 1) ∧
    toInt32 (d - 1) = d - 1 := by
  have hr := parseArgs_dev_range opts {} g hparse (by decide)
  subst hd
  obtain ⟨h1, h2, h3, h4⟩ := locate_explicit createFile g hne
  refine ⟨h1, ?_, ?_, ?_⟩
  · intro hc
    rw [h4, if_neg hc]
    exact ⟨rfl, h3, h2⟩
  · intro hc
    rw [h4, if_pos hc]
  · exact toInt32_of_range _ (by omega) (by omega)

/-- Witness for C5: `/devnum 22` with devices 30 and 22 present. -/
theorem C5_explicit_devnum_tries_only_that_device_witness :
    parseArgs {} [Opt.devnum 22] = .ok { dev_number := 22 } ∧
    attempts (locate (envWith [30, 22] 0 0 []).createFile { dev_number := 22 }).events = [22] ∧
    (locate (envWith [30, 22] 0 0 []).createFile { dev_number := 22 }).g.dev_number = 22 := by
  have h := C5_explicit_devnum_tries_only_that_device [Opt.devnum 22] { dev_number := 22 }
    (envWith [30, 22] 0 0 []).createFile 22 rfl rfl (by decide) (by decide)
  exact ⟨rfl, h.1, (h.2.1 (by decide)).2.1⟩

/-- C6 fails when `/timeout` is absent or negative: `timeout_ms` is a `DWORD`, so `-1` is
stored as 4294967295 and passes the guard `timeout_ms > 0`.  With no flag (and likewise with
`/timeout -1`), loop start at tick 0 and no byte arriving, the test does not fire at tick
4294967295 and fires at tick 4294967296. -/
theorem C6_unset_timeout_fires_after_2_pow_32_ms :
    (main [] (envWith [1] 0 0 [⟨none, 0, 60⟩, ⟨none, 0, 4294967295⟩])).status =
      Status.reading ∧
    (main [] (envWith [1] 0 0
      [⟨none, 0, 60⟩, ⟨none, 0, 4294967295⟩, ⟨none, 0, 4294967296⟩])).reason =
        some Reason.IdleTimeout ∧
    (main [Opt.timeout (-1)] (envWith [1] 0 0
      [⟨none, 0, 60⟩, ⟨none, 0, 4294967295⟩, ⟨none, 0, 4294967296⟩])).reason =
        some Reason.IdleTimeout ∧
    (main [Opt.timeout (-1)] (envWith [1] 0 0 [])).g.timeout_ms = 4294967295 := by
  decide

/-- C7. When the `/charcount` value is 0 or negative (or the flag is absent, which leaves
`charcount` at `-1`), no run leaves the read loop through the test
`chars_read >= charcount && charcount > 0`: whatever the devices, the clock and the reads
do, and in whatever state of `chars_read` and for however many iterations the loop runs. -/
theorem C7_nonpositive_charcount_never_fires (opts : List Opt) (g : Globals) (env : Env)
    (hparse : parseArgs {} opts = .ok g) (hcc : g.charcount ≤ 0) :
    (main opts env).reason ≠ some Reason.ByteLimitReached ∧
    ∀ (s : LoopState) (ticks : List Tick), s.g.charcount = g.charcount →
      (readLoop s ticks).reason ≠ some Reason.ByteLimitReached := by
  refine ⟨?_, fun s ticks hs => readLoop_ne_byteLimit ticks s (by rw [hs]; exact hcc)⟩
  rcases main_cases opts env with ⟨e, -, hm⟩ | ⟨g0, hp, hm | ⟨hl, hm⟩⟩
  · rw [hm]; simp
  · rw [hm]; simp [exit_message, exitWith]
  · rw [hparse] at hp
    cases hp
    have hc : (loopStart (locate env.createFile g).g env).g.charcount ≤ 0 := by
      show (locate env.createFile g).g.charcount ≤ 0
      rw [(locate_frame env.createFile g).1]; exact hcc
    have hne := readLoop_ne_byteLimit env.ticks _ hc
    rw [hm]
    simp only [runLoop]
    split
    · rename_i reason hr
      rw [hr] at hne
      simpa [exitWith] using hne
    · simp

/-- Witness for C7: `/charcount 0` and three bytes; all three are forwarded and the loop is
still reading. -/
theorem C7_nonpositive_charcount_never_fires_witness :
    parseArgs {} [Opt.charcount 0] = .ok { charcount := 0 } ∧
    (main [Opt.charcount 0]
      (envWith [1] 0 0 [⟨some 97, 1, 1⟩, ⟨some 98, 2, 2⟩, ⟨some 99, 3, 3⟩])).reason ≠
        some Reason.ByteLimitReached ∧
    (main [Opt.charcount 0]
      (envWith [1] 0 0 [⟨some 97, 1, 1⟩, ⟨some 98, 2, 2⟩, ⟨some 99, 3, 3⟩])).g.chars_read = 3 :=
  ⟨rfl,
    (C7_nonpositive_charcount_never_fires [Opt.charcount 0] { charcount := 0 }
      (envWith [1] 0 0 [⟨some 97, 1, 1⟩, ⟨some 98, 2, 2⟩, ⟨some 99, 3, 3⟩]) rfl (by decide)).1,
    by decide⟩

/-- C8 fails for the byte 0xFF when no terminator is configured: read as `c = -1` it equals
the initial `endchar = -1`, so it is not forwarded, not counted and does not update
`lastchartime`.  Of the stream `41 FF 42` the output is `41 42` and `chars_read` is 2; after
`41` at tick 10 and `FF` at tick 20, `lastchartime` is 10. -/
theorem C8_byte_0xFF_dropped_without_terminator :
    output (main [] (envWith [1] 0 0
      [⟨some 0x41, 10, 11⟩, ⟨some 0xFF, 20, 21⟩, ⟨some 0x42, 30, 31⟩])).events = [0x41, 0x42] ∧
    (main [] (envWith [1] 0 0
      [⟨some 0x41, 10, 11⟩, ⟨some 0xFF, 20, 21⟩, ⟨some 0x42, 30, 31⟩])).g.chars_read = 2 ∧
    (main [] (envWith [1] 0 0
      [⟨some 0x41, 10, 11⟩, ⟨some 0xFF, 20, 21⟩])).g.lastchartime = 10 ∧
    (main [] (envWith [1] 0 0
      [⟨some 0x41, 10, 11⟩, ⟨some 0xFF, 20, 21⟩])).g.endchar = -1 := by
  decide

/-- C9, as stated, fails in its last clause: `CloseSerialPort` does not reset `hSerial`, so
a second invocation calls `CloseHandle` on the same handle once more. -/
theorem C9_counterexample_second_close :
    (CloseSerialPort { hSerial := 1007 }).2 = [Event.closeHandle 1007] ∧
    (CloseSerialPort (CloseSerialPort { hSerial := 1007 }).1).2 = [Event.closeHandle 1007] ∧
    closeCount (runAtexit [AtexitFn.closeSerialPort, AtexitFn.closeSerialPort]
      { hSerial := 1007 }).2 = 2 := by
  decide

/-- C9 (amended). In every run that has ended, by a `break` of the read loop, by the failure
of the port scan, by the failure of one of the three configuration calls or by an argument
error: if some `CreateFileA` call of the run succeeded, `CloseHandle` was called exactly
once, on the handle that call returned; if none succeeded, `CloseHandle` was not called.
`CloseSerialPort` writes no variable, so it is not idempotent: the guarantee rests on its
running once, as the only function registered with `atexit`. -/
theorem C9_handle_closed_once_per_run (opts : List Opt) (env : Env) (code : Int)
    (hexit : (main opts env).status = .exited code) :
    ((∃ n ∈ attempts (main opts env).events, env.createFile n ≠ INVALID_HANDLE_VALUE) →
      closeCount (main opts env).events = 1 ∧
      closedHandles (main opts env).events = [(main opts env).g.hSerial] ∧
      (main opts env).g.hSerial = env.createFile (main opts env).g.dev_number ∧
      (main opts env).g.hSerial ≠ INVALID_HANDLE_VALUE) ∧
    ((∀ n ∈ attempts (main opts env).events, env.createFile n = INVALID_HANDLE_VALUE) →
      closeCount (main opts env).events = 0) ∧
    (∀ g : Globals, (CloseSerialPort g).1 = g) := by
  refine ⟨?_, ?_, ?_⟩
  · rintro ⟨n, hn, hc⟩
    rcases main_exited opts env code hexit with ⟨h1, h2, -, h4⟩ | ⟨h1, -⟩
    · refine ⟨?_, h4, h2, h1⟩
      rw [closeCount_eq_length, h4]
      rfl
    · exact absurd (h1 n hn) hc
  · intro hall
    rcases main_exited opts env code hexit with ⟨h1, h2, h3, -⟩ | ⟨-, h4⟩
    · exact absurd (hall _ h3) (by rw [← h2]; exact h1)
    · rw [closeCount_eq_length, h4]
      rfl
  · intro g
    unfold CloseSerialPort
    split <;> rfl

/-- Witness for C9: `/charcount 1`, device 7 present, one byte read: the run ends through
the byte-count test and the handle of device 7 is closed once. -/
theorem C9_handle_closed_once_per_run_witness :
    (main [Opt.charcount 1] (envWith [7] 0 0 [⟨some 97, 1, 1⟩])).status = Status.exited 0 ∧
    closeCount (main [Opt.charcount 1] (envWith [7] 0 0 [⟨some 97, 1, 1⟩])).events = 1 ∧
    closedHandles (main [Opt.charcount 1] (envWith [7] 0 0 [⟨some 97, 1, 1⟩])).events =
      [1007] := by
  have h := C9_handle_closed_once_per_run [Opt.charcount 1]
    (envWith [7] 0 0 [⟨some 97, 1, 1⟩]) 0 (by decide)
  have h1 := h.1 ⟨7, by decide, by decide⟩
  refine ⟨by decide, h1.1, ?_⟩
  rw [h1.2.1]
  decide

/-- C10 fails in the first iteration: the test at line 276 reads `c` without looking at
`bytes_read`, and `c` is uninitialised.  With `/endchar A`, `c` holding 0x41 on entry and a
first read that returns no byte, the run ends with the terminator test at once, although no
byte was ever read. -/
theorem C10_stale_c_fires_terminator_test :
    (main [Opt.endchar 0x41] (envWith [1] 0 0x41 [⟨none, 1, 1⟩])).reason =
      some Reason.TerminatorSeen ∧
    (main [Opt.endchar 0x41] (envWith [1] 0 0x41 [⟨none, 1, 1⟩])).status = Status.exited 0 ∧
    output (main [Opt.endchar 0x41] (envWith [1] 0 0x41 [⟨none, 1, 1⟩])).events = [] ∧
    (main [Opt.endchar 0x41] (envWith [1] 0 0x41 [⟨none, 1, 1⟩])).g.chars_read = 0 := by
  decide

end ComPrinter
